import Mathlib

/-!
Verification of the `github-stats` terminal dashboard (`src/dashboard.ts`).

The script fetches a GitHub contribution calendar through the `gh` CLI and
renders streak statistics, a 14-day bar chart and a year-long heatmap.  This
file gives a shallow embedding of its pure computations: dates stay the ISO
strings the program manipulates, and JavaScript numbers for counts and widths
become `Nat` (the data model guarantees non-negative integers).  The one
genuinely floating-point result, the bar lengths
`Math.round((count / max) * barMaxWidth)` of the 14-day chart, is deliberately
not embedded: its value depends on IEEE-754 binary64 rounding (for example
count 7, max 10, barMaxWidth 45 yields 31 in binary64 but 32 under exact
rational arithmetic), so no exact-arithmetic definition is faithful to it.
-/

namespace GithubStats

/-- `interface ContributionDay { date: string; contributionCount: number }`.
Counts are non-negative integers per the data model. -/
structure ContributionDay where
  date : String
  contributionCount : Nat
deriving DecidableEq

/-- `interface ContributionWeek { contributionDays: ContributionDay[] }`. -/
structure ContributionWeek where
  contributionDays : List ContributionDay
deriving DecidableEq

/-- `interface CalendarData { totalContributions: number; weeks: ContributionWeek[] }`. -/
structure CalendarData where
  totalContributions : Nat
  weeks : List ContributionWeek
deriving DecidableEq

/-- The `contributionsCollection` object of the GraphQL `viewer`. -/
structure ContributionsCollection where
  contributionCalendar : CalendarData
deriving DecidableEq

/-- The GraphQL `viewer` object parsed out of the CLI's JSON output. -/
structure Viewer where
  login : String
  contributionsCollection : ContributionsCollection
deriving DecidableEq

/-- `interface GitHubData { login: string; calendar: CalendarData }`. -/
structure GitHubData where
  login : String
  calendar : CalendarData
deriving DecidableEq

/-- `getAllDays`: `calendar.weeks.flatMap(w => w.contributionDays)`. -/
def getAllDays (calendar : CalendarData) : List ContributionDay :=
  (calendar.weeks.map (·.contributionDays)).flatten

/-- `[...days].sort((a, b) => b.date.localeCompare(a.date))`: stable sort into
descending date order.  JavaScript `Array.prototype.sort` is stable, and
insertion sort with the non-strict comparison `b.date ≤ a.date` is stable in
the same sense, so it is a faithful model. -/
def sortByDateDesc (days : List ContributionDay) : List ContributionDay :=
  List.insertionSort (fun a b => b.date ≤ a.date) days

/-- The counting loop of `calculateStreak` (`for (let i = startIdx; ...)`):
adds one per day while `contributionCount > 0`, stops at the first zero. -/
def countStreakFrom : List ContributionDay → Nat
  | [] => 0
  | d :: rest => if 0 < d.contributionCount then countStreakFrom rest + 1 else 0

/-- `calculateStreak` from `src/dashboard.ts`.  The ambient value
`new Date().toISOString().slice(0, 10)` is passed in as `today`.  The source
sorts descending, sets `startIdx := 1` when `sorted[0]` is today with a zero
count, then runs the counting loop from `startIdx`. -/
def calculateStreak (today : String) (days : List ContributionDay) : Nat :=
  match sortByDateDesc days with
  | [] => 0
  | d :: rest =>
    if d.date = today ∧ d.contributionCount = 0 then countStreakFrom rest
    else countStreakFrom (d :: rest)

/-- Boolean test `d.contributionCount > 0`. -/
def posDay (d : ContributionDay) : Bool := decide (0 < d.contributionCount)

/-- Modelled from the spec: "count consecutive days with `contributionCount > 0`
walking backward from the most recent day; if the most recent day is today with
zero count it is skipped before counting begins; stops at first zero day" —
expressed as the length of the positive-count prefix (`takeWhile`) of the
descending-sorted list after the optional skip. -/
def streakSpec (today : String) (days : List ContributionDay) : Nat :=
  let sorted := sortByDateDesc days
  let rest :=
    match sorted with
    | d :: tail => if d.date = today ∧ d.contributionCount = 0 then tail else sorted
    | [] => []
  (rest.takeWhile posDay).length

/-- The loop of `calculateLongestStreak`: `current` resets at a zero day,
`longest` is bumped to `current + 1` whenever it is exceeded. -/
def longestAux : Nat → Nat → List ContributionDay → Nat
  | _, longest, [] => longest
  | current, longest, d :: rest =>
    if 0 < d.contributionCount then
      longestAux (current + 1) (max longest (current + 1)) rest
    else
      longestAux 0 longest rest

/-- `calculateLongestStreak` from `src/dashboard.ts`: forward scan in list
order. -/
def calculateLongestStreak (days : List ContributionDay) : Nat :=
  longestAux 0 0 days

/-- Modelled from the spec: "maximum run length of consecutive positive-count
days across the whole series" — the maximum over every suffix of the length of
its leading positive run. -/
def maxRun : List ContributionDay → Nat
  | [] => 0
  | d :: rest => max ((d :: rest).takeWhile posDay).length (maxRun rest)

/-- The `nonZero` list of `computeQuartiles`:
`days.map(d => d.contributionCount).filter(c => c > 0).sort((a, b) => a - b)`. -/
def sortedNonzeroCounts (days : List ContributionDay) : List Nat :=
  List.insertionSort (· ≤ ·)
    ((days.map (·.contributionCount)).filter (fun c => decide (0 < c)))

/-- `computeQuartiles` from `src/dashboard.ts`.  The floating-point index
expressions are exact here: `Math.floor(n * 0.25) = n / 4`,
`Math.floor(n * 0.50) = n / 2`, `Math.floor(n * 0.75) = n * 3 / 4`
(`Nat` division). -/
def computeQuartiles (days : List ContributionDay) : List Nat :=
  let nonZero := sortedNonzeroCounts days
  if nonZero.length = 0 then [1, 2, 3, 4]
  else
    [nonZero.getD (nonZero.length / 4) 0,
     nonZero.getD (nonZero.length / 2) 0,
     nonZero.getD (nonZero.length * 3 / 4) 0]

/-- `getHeatmapLevel` from `src/dashboard.ts`.  Out-of-range accesses
`quartiles[i]` would give `undefined` in JavaScript, making `count <=
quartiles[i]` false for the positive counts reaching those branches; `getD i 0`
has the same effect. -/
def getHeatmapLevel (count : Nat) (quartiles : List Nat) : Nat :=
  if count = 0 then 0
  else if count ≤ quartiles.getD 0 0 then 1
  else if count ≤ quartiles.getD 1 0 then 2
  else if count ≤ quartiles.getD 2 0 then 3
  else 4

/-- The distinct ways the `try` block of `fetchContributions` can throw:
`execSync` failing (missing binary, non-zero exit from auth failure, timeout)
or `JSON.parse` / property access failing on malformed output. -/
inductive FetchFailure where
  | binaryMissing
  | authFailure
  | timeout
  | malformedJson
deriving DecidableEq

/-- Observable outcome of `fetchContributions`: either the parsed data, or the
lines printed to standard error together with the process exit code. -/
inductive FetchOutcome where
  | success (data : GitHubData)
  | exit (stderrLines : List String) (code : Nat)
deriving DecidableEq

/-- The two `console.error` lines of the `catch` block. -/
def fetchDiagnostic : List String :=
  ["Failed to fetch GitHub data. Make sure `gh` is installed and authenticated.",
   "Run `gh auth login` to set up the GitHub CLI."]

/-- `fetchContributions` from `src/dashboard.ts`.  The single `execSync` +
`JSON.parse` attempt is the `attempt` argument (the function consumes exactly
one attempt — there is no retry path); the `catch` block prints
`fetchDiagnostic` and calls `process.exit(1)`. -/
def fetchContributions (attempt : Except FetchFailure Viewer) : FetchOutcome :=
  match attempt with
  | .ok viewer =>
    .success { login := viewer.login,
               calendar := viewer.contributionsCollection.contributionCalendar }
  | .error _ => .exit fetchDiagnostic 1

/-- The layout decisions of `renderHeatmap`. -/
structure HeatmapLayout where
  cellWidth : Nat
  maxWeeks : Nat
  displayWeeks : List ContributionWeek
  rowIndices : List Nat
deriving DecidableEq

/-- The layout computation of `renderHeatmap` (`src/dashboard.ts`):
`available = width - indent - dayLabelWidth`, `cellWidth` is 2 when
`available >= weeks.length * 2` and 1 otherwise,
`maxWeeks = min(weeks.length, floor(available / cellWidth))`,
`displayWeeks = weeks.slice(weeks.length - maxWeeks)`, and the day rows are
all seven under the same condition as `cellWidth = 2`, else Mon/Wed/Fri. -/
def heatmapLayout (weeks : List ContributionWeek) (width : Nat) : HeatmapLayout :=
  let dayLabelWidth := 6
  let indent := 2
  let available := width - indent - dayLabelWidth
  let cellWidth := if weeks.length * 2 ≤ available then 2 else 1
  let maxWeeks := min weeks.length (available / cellWidth)
  let displayWeeks := weeks.drop (weeks.length - maxWeeks)
  let rowIndices := if weeks.length * 2 ≤ available then [0, 1, 2, 3, 4, 5, 6] else [1, 3, 5]
  { cellWidth := cellWidth, maxWeeks := maxWeeks,
    displayWeeks := displayWeeks, rowIndices := rowIndices }

/-- Models `new Date(s + 'T00:00:00').getMonth()` for a well-formed ISO date
`YYYY-MM-DD`: the zero-based month read from characters 5 and 6. -/
def monthOf (s : String) : Nat :=
  let cs := s.toList
  ((cs.getD 5 '0').toNat - 48) * 10 + ((cs.getD 6 '0').toNat - 48) - 1

/-- The `months` array of `renderHeatmap`. -/
def monthNames : List String :=
  ["Jan", "Feb", "Mar", "Apr", "May", "Jun", "Jul", "Aug", "Sep", "Oct", "Nov", "Dec"]

/-- The month-label collection loop of `renderHeatmap`: for each week whose
`contributionDays[0]` exists, emit `(w * cellWidth, months[month])` when the
month differs from `lastMonth`, updating `lastMonth`.  `lastMonth = -1`
initially is modelled by `Option.none`. -/
def monthPositionsAux (cellWidth : Nat) :
    Nat → Option Nat → List ContributionWeek → List (Nat × String)
  | _, _, [] => []
  | w, lastMonth, wk :: rest =>
    match wk.contributionDays.head? with
    | none => monthPositionsAux cellWidth (w + 1) lastMonth rest
    | some firstDay =>
      let m := monthOf firstDay.date
      if lastMonth = some m then monthPositionsAux cellWidth (w + 1) (some m) rest
      else (w * cellWidth, monthNames.getD m "") :: monthPositionsAux cellWidth (w + 1) (some m) rest

/-- `monthPositions` of `renderHeatmap`, over the displayed weeks. -/
def monthPositions (cellWidth : Nat) (displayWeeks : List ContributionWeek) :
    List (Nat × String) :=
  monthPositionsAux cellWidth 0 none displayWeeks

/-- The month-row placement loop of `renderHeatmap`: a label is written only
when `col > lastEnd` and `col + label.length <= chars.length`; on placement
`lastEnd` becomes `col + label.length`.  `lastEnd` starts at `-1`. -/
def placeLabelsAux (totalCols : Nat) : Int → List (Nat × String) → List (Nat × String)
  | _, [] => []
  | lastEnd, (col, label) :: rest =>
    if lastEnd < (col : Int) ∧ col + label.length ≤ totalCols then
      (col, label) :: placeLabelsAux totalCols ((col : Int) + (label.length : Int)) rest
    else placeLabelsAux totalCols lastEnd rest

/-- The labels actually written into the month row for a given calendar and
terminal width. -/
def placedLabels (weeks : List ContributionWeek) (width : Nat) : List (Nat × String) :=
  let L := heatmapLayout weeks width
  placeLabelsAux (L.displayWeeks.length * L.cellWidth) (-1)
    (monthPositions L.cellWidth L.displayWeeks)

/-- The month of the last week in `ws` having a first day, with fallback
`acc`: the value of the `lastMonth` variable after processing `ws`. -/
def lastDefinedMonth (acc : Option Nat) (ws : List ContributionWeek) : Option Nat :=
  ws.foldl (fun a wk =>
    match wk.contributionDays.head? with
    | some d => some (monthOf d.date)
    | none => a) acc

/-! ### Helper lemmas about the streak computations -/

theorem countStreakFrom_eq_takeWhile (l : List ContributionDay) :
    countStreakFrom l = (l.takeWhile posDay).length := by
  induction l with
  | nil => rfl
  | cons d rest ih =>
    by_cases h : 0 < d.contributionCount
    · simp [countStreakFrom, List.takeWhile_cons, posDay, h, ih]
    · simp [countStreakFrom, List.takeWhile_cons, posDay, h]

theorem takeWhile_length_le_maxRun (l : List ContributionDay) :
    (l.takeWhile posDay).length ≤ maxRun l := by
  cases l with
  | nil => simp [maxRun]
  | cons d rest => simp [maxRun]

theorem longestAux_eq (l : List ContributionDay) :
    ∀ c g, c ≤ g →
      longestAux c g l = max g (max (c + (l.takeWhile posDay).length) (maxRun l)) := by
  induction l with
  | nil =>
    intro c g h
    simp only [longestAux, maxRun, List.takeWhile_nil, List.length_nil]
    omega
  | cons d rest ih =>
    intro c g h
    by_cases hd : 0 < d.contributionCount
    · have hrec := ih (c + 1) (max g (c + 1)) (by omega)
      simp only [longestAux, if_pos hd, hrec, maxRun, List.takeWhile_cons, posDay,
        decide_eq_true_eq, hd, if_true, List.length_cons]
      omega
    · have hrec := ih 0 g (Nat.zero_le g)
      have hle := takeWhile_length_le_maxRun rest
      simp only [longestAux, if_neg hd, hrec, maxRun, List.takeWhile_cons, posDay,
        decide_eq_true_eq, hd, if_false, List.length_nil]
      omega

theorem calculateLongestStreak_eq_maxRun (days : List ContributionDay) :
    calculateLongestStreak days = maxRun days := by
  have h := longestAux_eq days 0 0 le_rfl
  have hle := takeWhile_length_le_maxRun days
  unfold calculateLongestStreak
  omega

theorem takeWhile_append_of_pos (mid post : List ContributionDay)
    (h : ∀ d ∈ mid, 0 < d.contributionCount) :
    (mid ++ post).takeWhile posDay = mid ++ post.takeWhile posDay := by
  induction mid with
  | nil => simp
  | cons a l ih =>
    have ha : posDay a = true := by simp [posDay, h a (by simp)]
    simp [List.takeWhile_cons, ha, ih (fun d hd => h d (by simp [hd]))]

theorem maxRun_le_maxRun_append (pre rest : List ContributionDay) :
    maxRun rest ≤ maxRun (pre ++ rest) := by
  induction pre with
  | nil => simp
  | cons a pre ih =>
    calc maxRun rest ≤ maxRun (pre ++ rest) := ih
      _ ≤ maxRun (a :: (pre ++ rest)) := by simp [maxRun]
      _ = maxRun ((a :: pre) ++ rest) := by simp

theorem run_length_le_maxRun (pre mid post : List ContributionDay)
    (h : ∀ d ∈ mid, 0 < d.contributionCount) :
    mid.length ≤ maxRun (pre ++ (mid ++ post)) := by
  have h1 : mid.length ≤ ((mid ++ post).takeWhile posDay).length := by
    rw [takeWhile_append_of_pos mid post h]
    simp
  calc mid.length ≤ ((mid ++ post).takeWhile posDay).length := h1
    _ ≤ maxRun (mid ++ post) := takeWhile_length_le_maxRun _
    _ ≤ maxRun (pre ++ (mid ++ post)) := maxRun_le_maxRun_append _ _

theorem maxRun_exists (l : List ContributionDay) :
    ∃ pre mid post, l = pre ++ mid ++ post ∧ (∀ d ∈ mid, 0 < d.contributionCount) ∧
      mid.length = maxRun l := by
  induction l with
  | nil => exact ⟨[], [], [], rfl, by simp, rfl⟩
  | cons d rest ih =>
    rcases ih with ⟨pre, mid, post, heq, hpos, hlen⟩
    by_cases hc : maxRun rest ≤ ((d :: rest).takeWhile posDay).length
    · refine ⟨[], (d :: rest).takeWhile posDay, (d :: rest).dropWhile posDay, ?_, ?_, ?_⟩
      · simp [List.takeWhile_append_dropWhile]
      · intro x hx
        have := List.mem_takeWhile_imp hx
        simpa [posDay] using this
      · have : maxRun (d :: rest) = ((d :: rest).takeWhile posDay).length := by
          rw [maxRun]
          omega
        rw [this]
    · refine ⟨d :: pre, mid, post, by simp [heq], hpos, ?_⟩
      have : maxRun (d :: rest) = maxRun rest := by
        rw [maxRun]
        omega
      rw [this, hlen]

/-! ### Claim theorems: streaks -/

/-- C1: `calculateStreak` counts consecutive positive-count days walking
backward from the most recent day of the descending-sorted list, skipping the
most recent day when it is today with a zero count, stopping at the first
zero-count day — i.e. it agrees with the `takeWhile`-based `streakSpec`
written from the spec's words. -/
theorem calculateStreak_eq_streakSpec (today : String) (days : List ContributionDay) :
    calculateStreak today days = streakSpec today days := by
  unfold calculateStreak streakSpec
  cases h : sortByDateDesc days with
  | nil => simp
  | cons d rest =>
    by_cases hc : d.date = today ∧ d.contributionCount = 0
    · simp [hc, countStreakFrom_eq_takeWhile]
    · simp [hc, countStreakFrom_eq_takeWhile]

/-- C2: `calculateLongestStreak` returns the maximum run length of consecutive
positive-count days across the whole series: some contiguous segment of
positive-count days has exactly this length, and every contiguous segment of
positive-count days has length at most this value. -/
theorem calculateLongestStreak_spec (days : List ContributionDay) :
    (∃ pre mid post, days = pre ++ mid ++ post ∧
        (∀ d ∈ mid, 0 < d.contributionCount) ∧
        mid.length = calculateLongestStreak days) ∧
    (∀ pre mid post, days = pre ++ mid ++ post →
        (∀ d ∈ mid, 0 < d.contributionCount) →
        mid.length ≤ calculateLongestStreak days) := by
  constructor
  · rw [calculateLongestStreak_eq_maxRun]
    exact maxRun_exists days
  · intro pre mid post heq hpos
    rw [calculateLongestStreak_eq_maxRun, heq, List.append_assoc]
    exact run_length_le_maxRun pre mid post hpos

/-- Witness for C2 at a concrete three-day series. -/
theorem calculateLongestStreak_spec_witness :
    (∃ pre mid post,
        ([⟨"2026-10-10", 2⟩, ⟨"2026-10-11", 0⟩, ⟨"2026-10-12", 3⟩] : List ContributionDay) =
          pre ++ mid ++ post ∧
        (∀ d ∈ mid, 0 < d.contributionCount) ∧
        mid.length = calculateLongestStreak
          [⟨"2026-10-10", 2⟩, ⟨"2026-10-11", 0⟩, ⟨"2026-10-12", 3⟩]) ∧
    (∀ pre mid post,
        ([⟨"2026-10-10", 2⟩, ⟨"2026-10-11", 0⟩, ⟨"2026-10-12", 3⟩] : List ContributionDay) =
          pre ++ mid ++ post →
        (∀ d ∈ mid, 0 < d.contributionCount) →
        mid.length ≤ calculateLongestStreak
          [⟨"2026-10-10", 2⟩, ⟨"2026-10-11", 0⟩, ⟨"2026-10-12", 3⟩]) :=
  calculateLongestStreak_spec [⟨"2026-10-10", 2⟩, ⟨"2026-10-11", 0⟩, ⟨"2026-10-12", 3⟩]

theorem countStreakFrom_of_all_zero (l : List ContributionDay)
    (h : ∀ d ∈ l, d.contributionCount = 0) : countStreakFrom l = 0 := by
  cases l with
  | nil => rfl
  | cons d rest => simp [countStreakFrom, h d (by simp)]

theorem longestAux_of_all_zero (l : List ContributionDay) :
    ∀ c g, (∀ d ∈ l, d.contributionCount = 0) → longestAux c g l = g := by
  induction l with
  | nil => intro c g _; rfl
  | cons d rest ih =>
    intro c g h
    have hd : d.contributionCount = 0 := h d (by simp)
    simp only [longestAux, hd]
    exact ih 0 g (fun x hx => h x (by simp [hx]))

/-- C5: on a calendar in which every day has a zero contribution count, both
the current streak and the longest streak are 0. -/
theorem allZero_streaks (today : String) (days : List ContributionDay)
    (h : ∀ d ∈ days, d.contributionCount = 0) :
    calculateStreak today days = 0 ∧ calculateLongestStreak days = 0 := by
  have hs : ∀ d ∈ sortByDateDesc days, d.contributionCount = 0 := fun d hd =>
    h d ((List.perm_insertionSort _ days).mem_iff.mp hd)
  refine ⟨?_, ?_⟩
  · unfold calculateStreak
    cases hsort : sortByDateDesc days with
    | nil => rfl
    | cons d rest =>
      rw [hsort] at hs
      show (if d.date = today ∧ d.contributionCount = 0 then countStreakFrom rest
        else countStreakFrom (d :: rest)) = 0
      by_cases hc : d.date = today ∧ d.contributionCount = 0
      · rw [if_pos hc]
        exact countStreakFrom_of_all_zero rest (fun x hx => hs x (by simp [hx]))
      · rw [if_neg hc]
        exact countStreakFrom_of_all_zero (d :: rest) hs
  · exact longestAux_of_all_zero days 0 0 h

/-- Witness for C5: a concrete all-zero two-day calendar. -/
theorem allZero_streaks_witness :
    calculateStreak "2026-01-03" [⟨"2026-01-01", 0⟩, ⟨"2026-01-02", 0⟩] = 0 ∧
    calculateLongestStreak [⟨"2026-01-01", 0⟩, ⟨"2026-01-02", 0⟩] = 0 :=
  allZero_streaks "2026-01-03" [⟨"2026-01-01", 0⟩, ⟨"2026-01-02", 0⟩] (by decide)

theorem orderedInsert_desc_append (a : ContributionDay) (m : List ContributionDay)
    (h : ∀ x ∈ m, a.date < x.date) :
    List.orderedInsert (fun p q => q.date ≤ p.date) a m = m ++ [a] := by
  induction m with
  | nil => rfl
  | cons b l ih =>
    have hb : ¬(b.date ≤ a.date) := not_le.mpr (h b (by simp))
    simp only [List.orderedInsert, if_neg hb, List.cons_append,
      ih (fun x hx => h x (by simp [hx]))]

theorem sortByDateDesc_of_ascending (days : List ContributionDay)
    (h : days.Pairwise (fun a b => a.date < b.date)) :
    sortByDateDesc days = days.reverse := by
  induction days with
  | nil => rfl
  | cons a l ih =>
    rw [List.pairwise_cons] at h
    unfold sortByDateDesc at *
    simp only [List.insertionSort]
    rw [ih h.2, orderedInsert_desc_append a l.reverse
      (fun x hx => h.1 x (List.mem_reverse.mp hx))]
    simp

/-- C10: for a series sorted in ascending date order with pairwise-distinct
dates, the longest streak is at least the current streak. -/
theorem calculateStreak_le_longestStreak (today : String) (days : List ContributionDay)
    (h : days.Pairwise (fun a b => a.date < b.date)) :
    calculateStreak today days ≤ calculateLongestStreak days := by
  rw [calculateLongestStreak_eq_maxRun]
  unfold calculateStreak
  rw [sortByDateDesc_of_ascending days h]
  cases hr : days.reverse with
  | nil => exact Nat.zero_le _
  | cons z rest =>
    have hdays : days = rest.reverse ++ [z] := by
      have := congrArg List.reverse hr
      simpa using this
    have hrest : rest.takeWhile posDay ++ rest.dropWhile posDay = rest :=
      List.takeWhile_append_dropWhile posDay rest
    show (if z.date = today ∧ z.contributionCount = 0 then countStreakFrom rest
      else countStreakFrom (z :: rest)) ≤ maxRun days
    by_cases hc : z.date = today ∧ z.contributionCount = 0
    · rw [if_pos hc, countStreakFrom_eq_takeWhile]
      have hpos : ∀ d ∈ (rest.takeWhile posDay).reverse, 0 < d.contributionCount := by
        intro d hd
        have := List.mem_takeWhile_imp (List.mem_reverse.mp hd)
        simpa [posDay] using this
      have hdecomp : days =
          (rest.dropWhile posDay).reverse ++ ((rest.takeWhile posDay).reverse ++ [z]) := by
        rw [hdays]
        conv_lhs => rw [← hrest]
        rw [List.reverse_append, List.append_assoc]
      calc (rest.takeWhile posDay).length
          = ((rest.takeWhile posDay).reverse).length := by simp
        _ ≤ maxRun ((rest.dropWhile posDay).reverse ++
              ((rest.takeWhile posDay).reverse ++ [z])) :=
            run_length_le_maxRun _ _ _ hpos
        _ = maxRun days := by rw [← hdecomp]
    · rw [if_neg hc, countStreakFrom_eq_takeWhile]
      have hztakedrop : (z :: rest).takeWhile posDay ++ (z :: rest).dropWhile posDay =
          z :: rest := List.takeWhile_append_dropWhile posDay (z :: rest)
      have hpos : ∀ d ∈ ((z :: rest).takeWhile posDay).reverse, 0 < d.contributionCount := by
        intro d hd
        have := List.mem_takeWhile_imp (List.mem_reverse.mp hd)
        simpa [posDay] using this
      have hdecomp : days =
          ((z :: rest).dropWhile posDay).reverse ++
            (((z :: rest).takeWhile posDay).reverse ++ []) := by
        have : days = (z :: rest).reverse := by
          have := congrArg List.reverse hr
          simpa using this
        rw [this]
        conv_lhs => rw [← hztakedrop]
        rw [List.reverse_append, List.append_nil]
      calc ((z :: rest).takeWhile posDay).length
          = (((z :: rest).takeWhile posDay).reverse).length := by simp
        _ ≤ maxRun (((z :: rest).dropWhile posDay).reverse ++
              (((z :: rest).takeWhile posDay).reverse ++ [])) :=
            run_length_le_maxRun _ _ _ hpos
        _ = maxRun days := by rw [← hdecomp]

/-- Witness for C10: a concrete strictly ascending series where today is the
last, zero-count day. -/
theorem calculateStreak_le_longestStreak_witness :
    calculateStreak "2026-10-12"
        [⟨"2026-10-09", 1⟩, ⟨"2026-10-10", 2⟩, ⟨"2026-10-11", 4⟩, ⟨"2026-10-12", 0⟩] ≤
      calculateLongestStreak
        [⟨"2026-10-09", 1⟩, ⟨"2026-10-10", 2⟩, ⟨"2026-10-11", 4⟩, ⟨"2026-10-12", 0⟩] :=
  calculateStreak_le_longestStreak "2026-10-12"
    [⟨"2026-10-09", 1⟩, ⟨"2026-10-10", 2⟩, ⟨"2026-10-11", 4⟩, ⟨"2026-10-12", 0⟩]
    (by
      simp only [List.pairwise_cons, List.forall_mem_cons, List.forall_mem_nil,
        String.lt_iff_toList_lt, and_true, List.Pairwise.nil]
      decide)

/-! ### Quartiles and heatmap levels -/

theorem getHeatmapLevel_mono (q : List Nat) {c1 c2 : Nat} (h : c1 ≤ c2) :
    getHeatmapLevel c1 q ≤ getHeatmapLevel c2 q := by
  unfold getHeatmapLevel
  split_ifs <;> omega

theorem getHeatmapLevel_eq_zero_iff (q : List Nat) (c : Nat) :
    getHeatmapLevel c q = 0 ↔ c = 0 := by
  unfold getHeatmapLevel
  constructor
  · intro h
    split_ifs at h <;> omega
  · intro h
    simp [h]

theorem getHeatmapLevel_bounds (q : List Nat) (c : Nat) (h : 0 < c) :
    1 ≤ getHeatmapLevel c q ∧ getHeatmapLevel c q ≤ 4 := by
  unfold getHeatmapLevel
  split_ifs <;> omega

/-- C3: `computeQuartiles` returns the values of the ascending-sorted nonzero
counts at the floor-indexed 25/50/75-percentile positions, and `[1, 2, 3, 4]`
when no nonzero count exists.  `sortedNonzeroCounts` really is an ascending
sort of the nonzero contribution counts (sorted, and a permutation of the
filtered counts); additionally every returned quartile of the nonempty case
is an actually occurring positive count, and the result is always sorted. -/
theorem computeQuartiles_spec (days : List ContributionDay) :
    ((sortedNonzeroCounts days).Sorted (· ≤ ·) ∧
      List.Perm (sortedNonzeroCounts days)
        ((days.map (·.contributionCount)).filter (fun c => decide (0 < c)))) ∧
    (sortedNonzeroCounts days = [] → computeQuartiles days = [1, 2, 3, 4]) ∧
    (sortedNonzeroCounts days ≠ [] →
      computeQuartiles days =
        [(sortedNonzeroCounts days).getD ((sortedNonzeroCounts days).length / 4) 0,
         (sortedNonzeroCounts days).getD ((sortedNonzeroCounts days).length / 2) 0,
         (sortedNonzeroCounts days).getD ((sortedNonzeroCounts days).length * 3 / 4) 0] ∧
      ∀ q ∈ computeQuartiles days, 0 < q ∧ ∃ d ∈ days, d.contributionCount = q) ∧
    (computeQuartiles days).Sorted (· ≤ ·) := by
  have hsorted : (sortedNonzeroCounts days).Sorted (· ≤ ·) :=
    List.sorted_insertionSort _ _
  have hperm : List.Perm (sortedNonzeroCounts days)
      ((days.map (·.contributionCount)).filter (fun c => decide (0 < c))) :=
    List.perm_insertionSort _ _
  have hmem_of_getD : ∀ i, i < (sortedNonzeroCounts days).length →
      0 < (sortedNonzeroCounts days).getD i 0 ∧
      ∃ d ∈ days, d.contributionCount = (sortedNonzeroCounts days).getD i 0 := by
    intro i hi
    have hmem : (sortedNonzeroCounts days).getD i 0 ∈ sortedNonzeroCounts days := by
      rw [List.getD_eq_getElem _ _ hi]
      exact List.getElem_mem hi
    have hfil := hperm.mem_iff.mp hmem
    rw [List.mem_filter] at hfil
    obtain ⟨hmap, hposq⟩ := hfil
    rw [List.mem_map] at hmap
    obtain ⟨d, hd, hdq⟩ := hmap
    exact ⟨by simpa using hposq, d, hd, hdq⟩
  refine ⟨⟨hsorted, hperm⟩, ?_, ?_, ?_⟩
  · intro h
    unfold computeQuartiles
    rw [h]
    rfl
  · intro h
    have hlen : 0 < (sortedNonzeroCounts days).length := List.length_pos.mpr h
    have heq : computeQuartiles days =
        [(sortedNonzeroCounts days).getD ((sortedNonzeroCounts days).length / 4) 0,
         (sortedNonzeroCounts days).getD ((sortedNonzeroCounts days).length / 2) 0,
         (sortedNonzeroCounts days).getD ((sortedNonzeroCounts days).length * 3 / 4) 0] := by
      unfold computeQuartiles
      rw [if_neg (by omega)]
    refine ⟨heq, ?_⟩
    intro q hq
    rw [heq] at hq
    simp only [List.mem_cons, List.not_mem_nil, or_false] at hq
    rcases hq with hq | hq | hq <;> rw [hq] <;> exact hmem_of_getD _ (by omega)
  · by_cases h : sortedNonzeroCounts days = []
    · unfold computeQuartiles
      rw [h]
      simp only [List.length_nil, if_pos rfl]
      decide
    · have hlen : 0 < (sortedNonzeroCounts days).length := List.length_pos.mpr h
      have heq : computeQuartiles days =
          [(sortedNonzeroCounts days).getD ((sortedNonzeroCounts days).length / 4) 0,
           (sortedNonzeroCounts days).getD ((sortedNonzeroCounts days).length / 2) 0,
           (sortedNonzeroCounts days).getD ((sortedNonzeroCounts days).length * 3 / 4) 0] := by
        unfold computeQuartiles
        rw [if_neg (by omega)]
      have hgetD : ∀ i j, i ≤ j → (hj : j < (sortedNonzeroCounts days).length) →
          (sortedNonzeroCounts days).getD i 0 ≤ (sortedNonzeroCounts days).getD j 0 := by
        intro i j hij hj
        have hi : i < (sortedNonzeroCounts days).length := by omega
        rw [List.getD_eq_get _ _ hi, List.getD_eq_get _ _ hj]
        exact hsorted.rel_get_of_le hij
      rw [heq]
      have h1 : (sortedNonzeroCounts days).length / 4 ≤ (sortedNonzeroCounts days).length / 2 := by
        omega
      have h2 : (sortedNonzeroCounts days).length / 2 ≤
          (sortedNonzeroCounts days).length * 3 / 4 := by
        omega
      have h3 : (sortedNonzeroCounts days).length * 3 / 4 < (sortedNonzeroCounts days).length := by
        omega
      have hA := hgetD _ _ h1 (by omega)
      have hB := hgetD _ _ h2 h3
      have hC := le_trans hA hB
      refine List.Pairwise.cons ?_ (List.Pairwise.cons ?_ (List.Pairwise.cons ?_ List.Pairwise.nil))
      · intro b hb
        rcases List.mem_cons.mp hb with hb | hb
        · rw [hb]
          exact hA
        · rw [List.mem_singleton] at hb
          rw [hb]
          exact hC
      · intro b hb
        rw [List.mem_singleton] at hb
        rw [hb]
        exact hB
      · intro b hb
        exact absurd hb (List.not_mem_nil b)

/-- Witness for C3 at a concrete series with nonzero counts. -/
theorem computeQuartiles_spec_witness :
    ((sortedNonzeroCounts [⟨"2026-01-01", 3⟩, ⟨"2026-01-02", 0⟩, ⟨"2026-01-03", 1⟩]).Sorted
        (· ≤ ·) ∧
      List.Perm
        (sortedNonzeroCounts [⟨"2026-01-01", 3⟩, ⟨"2026-01-02", 0⟩, ⟨"2026-01-03", 1⟩])
        ((([⟨"2026-01-01", 3⟩, ⟨"2026-01-02", 0⟩, ⟨"2026-01-03", 1⟩] :
            List ContributionDay).map (·.contributionCount)).filter
          (fun c => decide (0 < c)))) ∧
    (sortedNonzeroCounts [⟨"2026-01-01", 3⟩, ⟨"2026-01-02", 0⟩, ⟨"2026-01-03", 1⟩] = [] →
      computeQuartiles [⟨"2026-01-01", 3⟩, ⟨"2026-01-02", 0⟩, ⟨"2026-01-03", 1⟩] =
        [1, 2, 3, 4]) ∧
    (sortedNonzeroCounts [⟨"2026-01-01", 3⟩, ⟨"2026-01-02", 0⟩, ⟨"2026-01-03", 1⟩] ≠ [] →
      computeQuartiles [⟨"2026-01-01", 3⟩, ⟨"2026-01-02", 0⟩, ⟨"2026-01-03", 1⟩] =
        [(sortedNonzeroCounts
            [⟨"2026-01-01", 3⟩, ⟨"2026-01-02", 0⟩, ⟨"2026-01-03", 1⟩]).getD
          ((sortedNonzeroCounts
            [⟨"2026-01-01", 3⟩, ⟨"2026-01-02", 0⟩, ⟨"2026-01-03", 1⟩]).length / 4) 0,
         (sortedNonzeroCounts
            [⟨"2026-01-01", 3⟩, ⟨"2026-01-02", 0⟩, ⟨"2026-01-03", 1⟩]).getD
          ((sortedNonzeroCounts
            [⟨"2026-01-01", 3⟩, ⟨"2026-01-02", 0⟩, ⟨"2026-01-03", 1⟩]).length / 2) 0,
         (sortedNonzeroCounts
            [⟨"2026-01-01", 3⟩, ⟨"2026-01-02", 0⟩, ⟨"2026-01-03", 1⟩]).getD
          ((sortedNonzeroCounts
            [⟨"2026-01-01", 3⟩, ⟨"2026-01-02", 0⟩, ⟨"2026-01-03", 1⟩]).length * 3 / 4) 0] ∧
      ∀ q ∈ computeQuartiles [⟨"2026-01-01", 3⟩, ⟨"2026-01-02", 0⟩, ⟨"2026-01-03", 1⟩],
        0 < q ∧ ∃ d ∈ ([⟨"2026-01-01", 3⟩, ⟨"2026-01-02", 0⟩, ⟨"2026-01-03", 1⟩] :
          List ContributionDay), d.contributionCount = q) ∧
    (computeQuartiles [⟨"2026-01-01", 3⟩, ⟨"2026-01-02", 0⟩, ⟨"2026-01-03", 1⟩]).Sorted
      (· ≤ ·) :=
  computeQuartiles_spec [⟨"2026-01-01", 3⟩, ⟨"2026-01-02", 0⟩, ⟨"2026-01-03", 1⟩]

/-- C4: with the quartiles computed from any day list, the heatmap level is
monotone non-decreasing in the count; it is 0 exactly for count 0, and lies in
1..4 for positive counts. -/
theorem heatmapLevel_monotone_spec (days : List ContributionDay) (c1 c2 : Nat)
    (h : c1 ≤ c2) :
    getHeatmapLevel c1 (computeQuartiles days) ≤ getHeatmapLevel c2 (computeQuartiles days) ∧
    (∀ c : Nat, (getHeatmapLevel c (computeQuartiles days) = 0 ↔ c = 0) ∧
      (0 < c → 1 ≤ getHeatmapLevel c (computeQuartiles days) ∧
        getHeatmapLevel c (computeQuartiles days) ≤ 4)) :=
  ⟨getHeatmapLevel_mono _ h, fun c =>
    ⟨getHeatmapLevel_eq_zero_iff _ c, fun hc => getHeatmapLevel_bounds _ c hc⟩⟩

/-- Witness for C4 at a concrete series and counts `1 ≤ 5`. -/
theorem heatmapLevel_monotone_spec_witness :
    (1 ≤ 5 ∧
      getHeatmapLevel 1 (computeQuartiles [⟨"2026-01-01", 3⟩, ⟨"2026-01-02", 2⟩]) ≤
        getHeatmapLevel 5 (computeQuartiles [⟨"2026-01-01", 3⟩, ⟨"2026-01-02", 2⟩])) ∧
    (∀ c : Nat,
      (getHeatmapLevel c (computeQuartiles [⟨"2026-01-01", 3⟩, ⟨"2026-01-02", 2⟩]) = 0 ↔
        c = 0) ∧
      (0 < c →
        1 ≤ getHeatmapLevel c (computeQuartiles [⟨"2026-01-01", 3⟩, ⟨"2026-01-02", 2⟩]) ∧
        getHeatmapLevel c (computeQuartiles [⟨"2026-01-01", 3⟩, ⟨"2026-01-02", 2⟩]) ≤ 4)) :=
  ⟨⟨by decide,
    (heatmapLevel_monotone_spec [⟨"2026-01-01", 3⟩, ⟨"2026-01-02", 2⟩] 1 5 (by decide)).1⟩,
    (heatmapLevel_monotone_spec [⟨"2026-01-01", 3⟩, ⟨"2026-01-02", 2⟩] 1 5 (by decide)).2⟩

/-! ### Data fetching -/

/-- C7: on any failure of the single fetch attempt (binary missing, auth
failure, timeout, malformed JSON) the program emits exactly the two-line
diagnostic on standard error and exits with code 1; on success it returns the
login and contribution calendar parsed from the CLI's JSON output.  There is
no retry: `fetchContributions` consumes exactly one attempt. -/
theorem fetchContributions_spec (attempt : Except FetchFailure Viewer) :
    (∀ f : FetchFailure, attempt = Except.error f →
      fetchContributions attempt = FetchOutcome.exit fetchDiagnostic 1 ∧
      fetchDiagnostic.length = 2) ∧
    (∀ v : Viewer, attempt = Except.ok v →
      fetchContributions attempt =
        FetchOutcome.success ⟨v.login, v.contributionsCollection.contributionCalendar⟩) := by
  constructor
  · rintro f rfl
    exact ⟨rfl, rfl⟩
  · rintro v rfl
    rfl

/-- Witness for C7 at the concrete failing attempt `timeout`. -/
theorem fetchContributions_spec_witness :
    (∀ f : FetchFailure,
      (Except.error FetchFailure.timeout : Except FetchFailure Viewer) = Except.error f →
      fetchContributions (Except.error FetchFailure.timeout) =
        FetchOutcome.exit fetchDiagnostic 1 ∧
      fetchDiagnostic.length = 2) ∧
    (∀ v : Viewer,
      (Except.error FetchFailure.timeout : Except FetchFailure Viewer) = Except.ok v →
      fetchContributions (Except.error FetchFailure.timeout) =
        FetchOutcome.success ⟨v.login, v.contributionsCollection.contributionCalendar⟩) :=
  fetchContributions_spec (Except.error FetchFailure.timeout)

/-! ### Heatmap layout -/

theorem heatmapLayout_cellWidth (weeks : List ContributionWeek) (width : Nat) :
    (heatmapLayout weeks width).cellWidth =
      if weeks.length * 2 ≤ width - 2 - 6 then 2 else 1 := rfl

theorem heatmapLayout_maxWeeks (weeks : List ContributionWeek) (width : Nat) :
    (heatmapLayout weeks width).maxWeeks =
      min weeks.length
        ((width - 2 - 6) / (if weeks.length * 2 ≤ width - 2 - 6 then 2 else 1)) := rfl

theorem heatmapLayout_displayWeeks (weeks : List ContributionWeek) (width : Nat) :
    (heatmapLayout weeks width).displayWeeks =
      weeks.drop (weeks.length - (heatmapLayout weeks width).maxWeeks) := rfl

theorem heatmapLayout_rowIndices (weeks : List ContributionWeek) (width : Nat) :
    (heatmapLayout weeks width).rowIndices =
      if weeks.length * 2 ≤ width - 2 - 6 then [0, 1, 2, 3, 4, 5, 6] else [1, 3, 5] := rfl

/-- C8: with `available = width - 8` (indent 2 plus day-label width 6), the
heatmap uses cell width 2 exactly when `available` is at least twice the week
count and 1 otherwise; all seven day rows are shown exactly when the cell
width is 2, and only Mon/Wed/Fri exactly when it is 1; the displayed
week-columns times the cell width never exceed `available`; and the displayed
weeks are a suffix of the weeks (older weeks dropped first), of length
`maxWeeks`. -/
theorem heatmapLayout_spec (weeks : List ContributionWeek) (width : Nat) (hw : 8 ≤ width) :
    ((heatmapLayout weeks width).cellWidth = 2 ↔ weeks.length * 2 ≤ width - 8) ∧
    ((heatmapLayout weeks width).cellWidth = 2 ∨ (heatmapLayout weeks width).cellWidth = 1) ∧
    ((heatmapLayout weeks width).rowIndices = [0, 1, 2, 3, 4, 5, 6] ↔
      (heatmapLayout weeks width).cellWidth = 2) ∧
    ((heatmapLayout weeks width).rowIndices = [1, 3, 5] ↔
      (heatmapLayout weeks width).cellWidth = 1) ∧
    (heatmapLayout weeks width).displayWeeks.length * (heatmapLayout weeks width).cellWidth ≤
      width - 8 ∧
    (heatmapLayout weeks width).displayWeeks.length = (heatmapLayout weeks width).maxWeeks ∧
    weeks.take (weeks.length - (heatmapLayout weeks width).maxWeeks) ++
      (heatmapLayout weeks width).displayWeeks = weeks := by
  have htake : weeks.take (weeks.length - (heatmapLayout weeks width).maxWeeks) ++
      (heatmapLayout weeks width).displayWeeks = weeks := by
    rw [heatmapLayout_displayWeeks]
    exact List.take_append_drop _ _
  have hmw : (heatmapLayout weeks width).maxWeeks ≤ weeks.length := by
    rw [heatmapLayout_maxWeeks]
    exact min_le_left _ _
  have hlen : (heatmapLayout weeks width).displayWeeks.length =
      (heatmapLayout weeks width).maxWeeks := by
    rw [heatmapLayout_displayWeeks, List.length_drop]
    omega
  refine ⟨?_, ?_, ?_, ?_, ?_, hlen, htake⟩
  · rw [heatmapLayout_cellWidth]
    split_ifs with hc <;> constructor <;> intro h <;> omega
  · rw [heatmapLayout_cellWidth]
    split_ifs <;> simp
  · rw [heatmapLayout_rowIndices, heatmapLayout_cellWidth]
    split_ifs <;> decide
  · rw [heatmapLayout_rowIndices, heatmapLayout_cellWidth]
    split_ifs <;> decide
  · rw [hlen, heatmapLayout_maxWeeks, heatmapLayout_cellWidth]
    split_ifs with hc
    · have h1 : (width - 2 - 6) / 2 * 2 ≤ width - 2 - 6 := Nat.div_mul_le_self _ _
      have h2 : min weeks.length ((width - 2 - 6) / 2) ≤ (width - 2 - 6) / 2 :=
        min_le_right _ _
      omega
    · have h2 : min weeks.length ((width - 2 - 6) / 1) ≤ (width - 2 - 6) / 1 :=
        min_le_right _ _
      omega

/-- Witness for C8 at a concrete two-week calendar and width 80. -/
theorem heatmapLayout_spec_witness :
    ((heatmapLayout [⟨[]⟩, ⟨[⟨"2026-01-04", 1⟩]⟩] 80).cellWidth = 2 ↔
      ([⟨[]⟩, ⟨[⟨"2026-01-04", 1⟩]⟩] : List ContributionWeek).length * 2 ≤ 80 - 8) ∧
    ((heatmapLayout [⟨[]⟩, ⟨[⟨"2026-01-04", 1⟩]⟩] 80).cellWidth = 2 ∨
      (heatmapLayout [⟨[]⟩, ⟨[⟨"2026-01-04", 1⟩]⟩] 80).cellWidth = 1) ∧
    ((heatmapLayout [⟨[]⟩, ⟨[⟨"2026-01-04", 1⟩]⟩] 80).rowIndices = [0, 1, 2, 3, 4, 5, 6] ↔
      (heatmapLayout [⟨[]⟩, ⟨[⟨"2026-01-04", 1⟩]⟩] 80).cellWidth = 2) ∧
    ((heatmapLayout [⟨[]⟩, ⟨[⟨"2026-01-04", 1⟩]⟩] 80).rowIndices = [1, 3, 5] ↔
      (heatmapLayout [⟨[]⟩, ⟨[⟨"2026-01-04", 1⟩]⟩] 80).cellWidth = 1) ∧
    (heatmapLayout [⟨[]⟩, ⟨[⟨"2026-01-04", 1⟩]⟩] 80).displayWeeks.length *
      (heatmapLayout [⟨[]⟩, ⟨[⟨"2026-01-04", 1⟩]⟩] 80).cellWidth ≤ 80 - 8 ∧
    (heatmapLayout [⟨[]⟩, ⟨[⟨"2026-01-04", 1⟩]⟩] 80).displayWeeks.length =
      (heatmapLayout [⟨[]⟩, ⟨[⟨"2026-01-04", 1⟩]⟩] 80).maxWeeks ∧
    ([⟨[]⟩, ⟨[⟨"2026-01-04", 1⟩]⟩] : List ContributionWeek).take
        (([⟨[]⟩, ⟨[⟨"2026-01-04", 1⟩]⟩] : List ContributionWeek).length -
          (heatmapLayout [⟨[]⟩, ⟨[⟨"2026-01-04", 1⟩]⟩] 80).maxWeeks) ++
      (heatmapLayout [⟨[]⟩, ⟨[⟨"2026-01-04", 1⟩]⟩] 80).displayWeeks =
      [⟨[]⟩, ⟨[⟨"2026-01-04", 1⟩]⟩] :=
  heatmapLayout_spec [⟨[]⟩, ⟨[⟨"2026-01-04", 1⟩]⟩] 80 (by decide)

/-! ### Month labels -/

theorem lastDefinedMonth_cons (acc : Option Nat) (wk : ContributionWeek)
    (t : List ContributionWeek) :
    lastDefinedMonth acc (wk :: t) =
      lastDefinedMonth
        (match wk.contributionDays.head? with
          | some d => some (monthOf d.date)
          | none => acc) t := rfl

theorem monthPositionsAux_mem (cw : Nat) (ws : List ContributionWeek) :
    ∀ (w0 : Nat) (lm : Option Nat) (p : Nat × String),
      p ∈ monthPositionsAux cw w0 lm ws →
      ∃ i, ∃ h : i < ws.length, ∃ fd,
        (ws.get ⟨i, h⟩).contributionDays.head? = some fd ∧
        p.1 = (w0 + i) * cw ∧
        p.2 = monthNames.getD (monthOf fd.date) "" ∧
        lastDefinedMonth lm (ws.take i) ≠ some (monthOf fd.date) := by
  induction ws with
  | nil =>
    intro w0 lm p hp
    exact absurd hp (List.not_mem_nil p)
  | cons wk rest ih =>
    intro w0 lm p hp
    rw [monthPositionsAux] at hp
    cases hh : wk.contributionDays.head? with
    | none =>
      rw [hh] at hp
      obtain ⟨i, h, fd, h1, h2, h3, h4⟩ := ih (w0 + 1) lm p hp
      refine ⟨i + 1, Nat.succ_lt_succ h, fd, h1, ?_, h3, ?_⟩
      · rw [h2]
        congr 1
        omega
      · rw [List.take_succ_cons, lastDefinedMonth_cons, hh]
        exact h4
    | some fd0 =>
      rw [hh] at hp
      simp only at hp
      by_cases hm : lm = some (monthOf fd0.date)
      · rw [if_pos hm] at hp
        obtain ⟨i, h, fd, h1, h2, h3, h4⟩ := ih (w0 + 1) (some (monthOf fd0.date)) p hp
        refine ⟨i + 1, Nat.succ_lt_succ h, fd, h1, ?_, h3, ?_⟩
        · rw [h2]
          congr 1
          omega
        · rw [List.take_succ_cons, lastDefinedMonth_cons, hh]
          exact h4
      · rw [if_neg hm] at hp
        rcases List.mem_cons.mp hp with hp | hp
        · refine ⟨0, Nat.succ_pos _, fd0, hh, ?_, ?_, ?_⟩
          · rw [hp]
            simp
          · rw [hp]
          · simpa using hm
        · obtain ⟨i, h, fd, h1, h2, h3, h4⟩ := ih (w0 + 1) (some (monthOf fd0.date)) p hp
          refine ⟨i + 1, Nat.succ_lt_succ h, fd, h1, ?_, h3, ?_⟩
          · rw [h2]
            congr 1
            omega
          · rw [List.take_succ_cons, lastDefinedMonth_cons, hh]
            exact h4

theorem placeLabelsAux_subset (t : Nat) (ps : List (Nat × String)) :
    ∀ (e : Int), ∀ p ∈ placeLabelsAux t e ps, p ∈ ps := by
  induction ps with
  | nil =>
    intro e p hp
    exact absurd hp (List.not_mem_nil p)
  | cons a rest ih =>
    intro e p hp
    obtain ⟨col, label⟩ := a
    rw [placeLabelsAux] at hp
    split_ifs at hp with hcond
    · rcases List.mem_cons.mp hp with hp | hp
      · exact List.mem_cons.mpr (Or.inl hp)
      · exact List.mem_cons.mpr (Or.inr (ih _ p hp))
    · exact List.mem_cons.mpr (Or.inr (ih _ p hp))

theorem placeLabelsAux_fits (t : Nat) (ps : List (Nat × String)) :
    ∀ (e : Int), ∀ p ∈ placeLabelsAux t e ps, p.1 + p.2.length ≤ t := by
  induction ps with
  | nil =>
    intro e p hp
    exact absurd hp (List.not_mem_nil p)
  | cons a rest ih =>
    intro e p hp
    obtain ⟨col, label⟩ := a
    rw [placeLabelsAux] at hp
    split_ifs at hp with hcond
    · rcases List.mem_cons.mp hp with hp | hp
      · rw [hp]
        exact hcond.2
      · exact ih _ p hp
    · exact ih _ p hp

theorem placeLabelsAux_chain (t : Nat) (ps : List (Nat × String)) :
    ∀ (e : Int),
      (placeLabelsAux t e ps).Chain' (fun p q => p.1 + p.2.length < q.1) ∧
      (∀ q, (placeLabelsAux t e ps).head? = some q → e < (q.1 : Int)) := by
  induction ps with
  | nil =>
    intro e
    refine ⟨List.chain'_nil, fun q hq => ?_⟩
    rw [placeLabelsAux] at hq
    exact absurd hq (by simp)
  | cons a rest ih =>
    intro e
    obtain ⟨col, label⟩ := a
    by_cases hcond : e < (col : Int) ∧ col + label.length ≤ t
    · constructor
      · rw [placeLabelsAux, if_pos hcond]
        rw [List.chain'_cons']
        refine ⟨?_, (ih _).1⟩
        intro b hb
        have hlt := (ih ((col : Int) + (label.length : Int))).2 b hb
        show col + label.length < b.1
        exact_mod_cast hlt
      · intro q hq
        rw [placeLabelsAux, if_pos hcond] at hq
        rw [List.head?_cons, Option.some_inj] at hq
        rw [← hq]
        exact hcond.1
    · constructor
      · rw [placeLabelsAux, if_neg hcond]
        exact (ih e).1
      · intro q hq
        rw [placeLabelsAux, if_neg hcond] at hq
        exact (ih e).2 q hq

/-- C9: every label written into the heatmap's month row comes from a
month-change week-column (a week whose first day's month differs from the
month of the last preceding week that has a first day), consecutive placed
labels never overlap (the next label starts strictly after the previous one
ends, so any overlapping label was skipped), and every placed label lies
entirely within the grid's column span. -/
theorem monthLabels_spec (weeks : List ContributionWeek) (width : Nat) :
    (∀ p ∈ placedLabels weeks width,
      p ∈ monthPositions (heatmapLayout weeks width).cellWidth
            (heatmapLayout weeks width).displayWeeks) ∧
    (∀ p ∈ monthPositions (heatmapLayout weeks width).cellWidth
            (heatmapLayout weeks width).displayWeeks,
      ∃ i, ∃ h : i < (heatmapLayout weeks width).displayWeeks.length, ∃ fd,
        ((heatmapLayout weeks width).displayWeeks.get ⟨i, h⟩).contributionDays.head? =
          some fd ∧
        p.1 = i * (heatmapLayout weeks width).cellWidth ∧
        p.2 = monthNames.getD (monthOf fd.date) "" ∧
        lastDefinedMonth none ((heatmapLayout weeks width).displayWeeks.take i) ≠
          some (monthOf fd.date)) ∧
    (placedLabels weeks width).Chain' (fun p q => p.1 + p.2.length < q.1) ∧
    (∀ p ∈ placedLabels weeks width,
      p.1 + p.2.length ≤
        (heatmapLayout weeks width).displayWeeks.length *
          (heatmapLayout weeks width).cellWidth) := by
  refine ⟨?_, ?_, ?_, ?_⟩
  · intro p hp
    exact placeLabelsAux_subset _ _ _ p hp
  · intro p hp
    obtain ⟨i, h, fd, h1, h2, h3, h4⟩ :=
      monthPositionsAux_mem (heatmapLayout weeks width).cellWidth
        (heatmapLayout weeks width).displayWeeks 0 none p hp
    refine ⟨i, h, fd, h1, ?_, h3, h4⟩
    rw [h2]
    congr 1
    omega
  · exact (placeLabelsAux_chain _ _ (-1)).1
  · intro p hp
    exact placeLabelsAux_fits _ _ _ p hp

/-- Witness for C9 at a concrete two-month calendar and width 80. -/
theorem monthLabels_spec_witness :
    (∀ p ∈ placedLabels [⟨[⟨"2026-01-04", 1⟩]⟩, ⟨[⟨"2026-02-01", 2⟩]⟩] 80,
      p ∈ monthPositions
            (heatmapLayout [⟨[⟨"2026-01-04", 1⟩]⟩, ⟨[⟨"2026-02-01", 2⟩]⟩] 80).cellWidth
            (heatmapLayout [⟨[⟨"2026-01-04", 1⟩]⟩, ⟨[⟨"2026-02-01", 2⟩]⟩] 80).displayWeeks) ∧
    (∀ p ∈ monthPositions
            (heatmapLayout [⟨[⟨"2026-01-04", 1⟩]⟩, ⟨[⟨"2026-02-01", 2⟩]⟩] 80).cellWidth
            (heatmapLayout [⟨[⟨"2026-01-04", 1⟩]⟩, ⟨[⟨"2026-02-01", 2⟩]⟩] 80).displayWeeks,
      ∃ i, ∃ h : i <
          (heatmapLayout [⟨[⟨"2026-01-04", 1⟩]⟩, ⟨[⟨"2026-02-01", 2⟩]⟩] 80).displayWeeks.length,
        ∃ fd,
        ((heatmapLayout [⟨[⟨"2026-01-04", 1⟩]⟩, ⟨[⟨"2026-02-01", 2⟩]⟩] 80).displayWeeks.get
            ⟨i, h⟩).contributionDays.head? = some fd ∧
        p.1 = i * (heatmapLayout [⟨[⟨"2026-01-04", 1⟩]⟩, ⟨[⟨"2026-02-01", 2⟩]⟩] 80).cellWidth ∧
        p.2 = monthNames.getD (monthOf fd.date) "" ∧
        lastDefinedMonth none
            ((heatmapLayout [⟨[⟨"2026-01-04", 1⟩]⟩, ⟨[⟨"2026-02-01", 2⟩]⟩] 80).displayWeeks.take
              i) ≠
          some (monthOf fd.date)) ∧
    (placedLabels [⟨[⟨"2026-01-04", 1⟩]⟩, ⟨[⟨"2026-02-01", 2⟩]⟩] 80).Chain'
      (fun p q => p.1 + p.2.length < q.1) ∧
    (∀ p ∈ placedLabels [⟨[⟨"2026-01-04", 1⟩]⟩, ⟨[⟨"2026-02-01", 2⟩]⟩] 80,
      p.1 + p.2.length ≤
        (heatmapLayout [⟨[⟨"2026-01-04", 1⟩]⟩, ⟨[⟨"2026-02-01", 2⟩]⟩] 80).displayWeeks.length *
          (heatmapLayout [⟨[⟨"2026-01-04", 1⟩]⟩, ⟨[⟨"2026-02-01", 2⟩]⟩] 80).cellWidth) :=
  monthLabels_spec [⟨[⟨"2026-01-04", 1⟩]⟩, ⟨[⟨"2026-02-01", 2⟩]⟩] 80

end GithubStats
